import Mathlib

/-!
Verification development for the job-match-scanner program (src/scanner.py).
The scorer, text cleaner, aggregation loop, deduplication, sorting and
truncation are shallowly embedded as executable Lean functions over
`String` and `List Char`, and the specified properties are proved about
those functions.
-/

/-! ## String primitives modelling the Python operations used by scanner.py -/

/-- Models Python `str.lower()` (ASCII case folding, which covers every
string the program constructs itself). -/
def pyLower (s : String) : String := String.mk (s.data.map Char.toLower)

/-- A word character in the sense of the regex `\b` anchor: `[A-Za-z0-9_]`
(the ASCII fragment of Python `\w`). -/
def isWordChar (c : Char) : Bool := c.isAlphanum || c == '_'

/-- Word-character test on an optional character; `none` stands for the
edge of the string and is never a word character. -/
def optWord : Option Char → Bool
  | none => false
  | some c => isWordChar c

/-- The regex word-boundary `\b` holds between two adjacent positions when
exactly one of them carries a word character. -/
def isBoundary (prev next : Option Char) : Bool := optWord prev != optWord next

/-- If `pat` is literally the next characters of `s`, return the remainder
of `s` after the match, else `none`. -/
def matchHere : List Char → List Char → Option (List Char)
  | [], s => some s
  | _ :: _, [] => none
  | p :: ps, c :: cs => if p == c then matchHere ps cs else none

/-- Does the literal pattern `pat` match at the current position (with the
previous character `prev`), flanked by `\b` word boundaries on both ends?
Models `re.search` testing one position of `r"\b" + re.escape(pat) + r"\b"`. -/
def wbHere (pat : List Char) (prev : Option Char) (s : List Char) : Bool :=
  match matchHere pat s with
  | some rest =>
      isBoundary prev pat.head? &&
      isBoundary ((pat.getLast?).orElse fun _ => prev) rest.head?
  | none => false

/-- Scan every position of `s`, keeping track of the previous character. -/
def wbSearchAux (pat : List Char) : Option Char → List Char → Bool
  | prev, [] => wbHere pat prev []
  | prev, c :: cs => wbHere pat prev (c :: cs) || wbSearchAux pat (some c) cs

/-- Models `re.search(r"\b" + re.escape(pat) + r"\b", s) is not None` for a
literal pattern `pat` (every skill phrase is a literal after `re.escape`). -/
def reWordSearch (pat : String) (s : String) : Bool :=
  wbSearchAux pat.data none s.data

/-- Does `needle` occur literally at the head of `hay`? -/
def substrAt (needle hay : List Char) : Bool := (matchHere needle hay).isSome

/-- Substring occurrence anywhere in the list. -/
def hasSubstrL (needle : List Char) : List Char → Bool
  | [] => substrAt needle []
  | c :: cs => substrAt needle (c :: cs) || hasSubstrL needle cs

/-- Models the Python substring test `needle in hay`. -/
def hasSubstr (needle hay : String) : Bool := hasSubstrL needle.data hay.data

/-- Models Python string slicing `s[:n]` (by characters). -/
def pyTake (n : Nat) (s : String) : String := String.mk (s.data.take n)

/-! ## The scorer (scanner.py, `score_listing`) -/

/-- The fixed skill list `IAN_SKILLS` from scanner.py. -/
def IAN_SKILLS : List String :=
  ["python", "fastapi", "react", "typescript", "xgboost", "yolov8", "nlp",
   "computer vision", "aws", "docker", "postgresql", "redis", "claude",
   "langchain", "scikit-learn", "pytorch", "tensorflow", "kubernetes",
   "sql", "git", "rest api", "microservices", "llm", "openai"]

/-- Senior-tier marker words tested by `score_listing`. -/
def seniorWords : List String := ["senior", "lead", "staff"]

/-- Junior-tier marker words tested by `score_listing`. -/
def juniorWords : List String := ["junior", "intern", "entry"]

/-- The skill-matching loop of `score_listing`: each skill of `IAN_SKILLS`,
in order, is appended to `matched` when its word-bounded pattern is found
in the lowered text. -/
def matchedSkills (text_lower : String) : List String :=
  IAN_SKILLS.filter fun skill => reWordSearch skill text_lower

/-- The running score of `score_listing` just before the remote bonus:
`len(matched) * 10`, plus 5 when a senior-tier word occurs as a substring,
minus 10 when a junior-tier word occurs as a substring. -/
def preRemoteScore (tl : String) : Int :=
  let base : Int := (matchedSkills tl).length * 10
  let s1 := if seniorWords.any (fun w => hasSubstr w tl) then base + 5 else base
  if juniorWords.any (fun w => hasSubstr w tl) then s1 - 10 else s1

/-- The final running score: `score += 5` when `"remote" in text_lower`
(a substring test in the source). -/
def rawScore (tl : String) : Int :=
  if hasSubstr "remote" tl then preRemoteScore tl + 5 else preRemoteScore tl

/-- `score_listing(text)` from scanner.py: returns
`(max(0, score), matched)`. -/
def score_listing (text : String) : Int × List String :=
  (max 0 (rawScore (pyLower text)), matchedSkills (pyLower text))

/-- Variant of the final score written from the claim wording for C2, for
comparison with the source: the remote bonus would require `"remote"` as a
whole word (word-boundary delimited) rather than as a substring. -/
def rawScoreWordRemote (tl : String) : Int :=
  if reWordSearch "remote" tl then preRemoteScore tl + 5 else preRemoteScore tl

/-- The scorer as claim C2 describes it: identical to `score_listing`
except that the remote bonus is gated on a whole-word match. -/
def scoreListingWordRemote (text : String) : Int × List String :=
  (max 0 (rawScoreWordRemote (pyLower text)), matchedSkills (pyLower text))

/-! ## Claims about the scorer -/

/-- C1: the scorer lower-cases the text and tests each skill phrase of
`IAN_SKILLS` in order with a word-boundary-anchored whole-word/phrase
match; the matched list is a duplicate-free sublist of `IAN_SKILLS` in
`IAN_SKILLS` order containing exactly the matching skills, and absent
seniority/junior/remote markers each matched skill contributes exactly 10;
in particular a text whose matched skills are exactly `python` and `sql`
with no markers scores 20 with matched list `["python", "sql"]`. -/
theorem C1_skill_matching (text : String) :
    ((score_listing text).2).Sublist IAN_SKILLS
  ∧ ((score_listing text).2).Nodup
  ∧ (∀ sk, sk ∈ (score_listing text).2 ↔
        sk ∈ IAN_SKILLS ∧ reWordSearch sk (pyLower text) = true)
  ∧ (seniorWords.any (fun w => hasSubstr w (pyLower text)) = false →
     juniorWords.any (fun w => hasSubstr w (pyLower text)) = false →
     hasSubstr "remote" (pyLower text) = false →
       (score_listing text).1 = 10 * ((score_listing text).2).length
     ∧ ((score_listing text).2 = ["python", "sql"] →
          score_listing text = (20, ["python", "sql"]))) := by
  have hsnd : (score_listing text).2 = matchedSkills (pyLower text) := rfl
  refine ⟨?_, ?_, ?_, ?_⟩
  · rw [hsnd]; exact List.filter_sublist _
  · rw [hsnd]
    exact List.Nodup.sublist (List.filter_sublist _) (by decide)
  · intro sk
    rw [hsnd]
    unfold matchedSkills
    simp [List.mem_filter]
  · intro h1 h2 h3
    have hraw : rawScore (pyLower text) =
        ((matchedSkills (pyLower text)).length : Int) * 10 := by
      unfold rawScore preRemoteScore
      simp [h1, h2, h3]
    have hfst : (score_listing text).1 =
        10 * ((score_listing text).2).length := by
      show max 0 (rawScore (pyLower text)) = _
      rw [hraw, hsnd]
      have hnn : (0 : Int) ≤ ((matchedSkills (pyLower text)).length : Int) * 10 := by
        positivity
      rw [max_eq_right hnn]; ring
    refine ⟨hfst, ?_⟩
    intro hm
    have h20 : (score_listing text).1 = 20 := by
      rw [hfst, hm]; rfl
    have : score_listing text = ((score_listing text).1, (score_listing text).2) := rfl
    rw [this, h20, hm]

/-- Witness for C1 at the concrete text `"python and sql"`. -/
theorem C1_skill_matching_witness :
    score_listing "python and sql" = (20, ["python", "sql"]) :=
  ((C1_skill_matching "python and sql").2.2.2
    (by decide) (by decide) (by decide)).2 (by decide)

/-- C2 counterexample: the claim says the remote bonus requires `"remote"`
as a whole word, but the source tests `"remote" in text_lower` — a
substring test. On `"python remotely"` the source awards the bonus
(score 15) while the whole-word variant does not (score 10). -/
theorem C2_counterexample :
    score_listing "python remotely" ≠ scoreListingWordRemote "python remotely" := by
  decide

/-- C2 amended: the scorer adds exactly 5 to the running score if and only
if the lowered text contains `"remote"` as a substring (case-insensitive),
and the bonus is applied at most once however many occurrences there are. -/
theorem C2_remote_substring_bonus (text : String) :
    (score_listing text).1 =
      max 0 (preRemoteScore (pyLower text) +
        (if hasSubstr "remote" (pyLower text) then 5 else 0)) := by
  show max 0 (rawScore (pyLower text)) = _
  unfold rawScore
  cases h : hasSubstr "remote" (pyLower text) <;> simp [h]

/-- C5: the returned score is never negative, and a text with only
junior-tier markers — no skill matches, no senior markers, no remote —
scores exactly 0 rather than a negative value. -/
theorem C5_score_nonneg (text : String) :
    0 ≤ (score_listing text).1
  ∧ (matchedSkills (pyLower text) = [] →
     seniorWords.any (fun w => hasSubstr w (pyLower text)) = false →
     hasSubstr "remote" (pyLower text) = false →
     juniorWords.any (fun w => hasSubstr w (pyLower text)) = true →
     (score_listing text).1 = 0) := by
  constructor
  · exact le_max_left 0 _
  · intro h0 h1 h3 h2
    show max 0 (rawScore (pyLower text)) = 0
    have hraw : rawScore (pyLower text) = -10 := by
      unfold rawScore preRemoteScore
      simp [h0, h1, h2, h3]
    rw [hraw]; decide

/-- Witness for C5 at the concrete text `"junior intern"`. -/
theorem C5_score_nonneg_witness :
    0 ≤ (score_listing "junior intern").1
  ∧ (score_listing "junior intern").1 = 0 :=
  ⟨(C5_score_nonneg "junior intern").1,
   (C5_score_nonneg "junior intern").2 (by decide) (by decide) (by decide) (by decide)⟩

/-- C6: the senior-tier (+5) and junior-tier (−10) adjustments are
independent, non-exclusive checks: on any text containing both `"senior"`
and `"intern"` both apply, so the final score is the clamp of
`10 * matches + 5 − 10` plus the remote bonus. -/
theorem C6_independent_adjustments (text : String)
    (hs : hasSubstr "senior" (pyLower text) = true)
    (hj : hasSubstr "intern" (pyLower text) = true) :
    (score_listing text).1 =
      max 0 (((matchedSkills (pyLower text)).length : Int) * 10 + 5 - 10 +
        (if hasSubstr "remote" (pyLower text) then 5 else 0)) := by
  have h1 : seniorWords.any (fun w => hasSubstr w (pyLower text)) = true := by
    unfold seniorWords; simp [hs]
  have h2 : juniorWords.any (fun w => hasSubstr w (pyLower text)) = true := by
    unfold juniorWords; simp [hj]
  show max 0 (rawScore (pyLower text)) = _
  unfold rawScore preRemoteScore
  cases hr : hasSubstr "remote" (pyLower text) <;>
    simp [h1, h2, hr]

/-- Witness for C6 at the concrete text `"senior intern"`. -/
theorem C6_independent_adjustments_witness :
    (score_listing "senior intern").1 =
      max 0 (((matchedSkills (pyLower "senior intern")).length : Int) * 10 + 5 - 10 +
        (if hasSubstr "remote" (pyLower "senior intern") then 5 else 0)) :=
  C6_independent_adjustments "senior intern" (by decide) (by decide)

/-! ## Text cleaning (scanner.py, `clean_text`) -/

/-- Python whitespace characters matched by the regex class on ASCII. -/
def isPySpace (c : Char) : Bool :=
  c == ' ' || c == '\t' || c == '\n' || c == '\r' || c == '\x0b' || c == '\x0c'

/-- Models one left-to-right pass of `re.sub` with a tag pattern
(an opening angle bracket, one or more characters other than a closing
angle bracket, then a closing angle bracket) replaced by a single space.
The first argument buffers the characters after a pending opening bracket
(in reverse) while looking for the closing bracket. -/
def stripTagsAux : Option (List Char) → List Char → List Char
  | none, [] => []
  | none, c :: cs =>
      if c == '<' then stripTagsAux (some []) cs else c :: stripTagsAux none cs
  | some buf, [] => '<' :: buf.reverse
  | some buf, c :: cs =>
      if c == '>' then
        if buf.isEmpty then '<' :: '>' :: stripTagsAux none cs
        else ' ' :: stripTagsAux none cs
      else stripTagsAux (some (c :: buf)) cs

/-- Models `re.sub` collapsing each maximal whitespace run into one space:
the Boolean records whether the previous character belonged to a
whitespace run already replaced by a space. -/
def collapseWsAux : Bool → List Char → List Char
  | _, [] => []
  | inRun, c :: cs =>
      if isPySpace c then
        if inRun then collapseWsAux true cs else ' ' :: collapseWsAux true cs
      else c :: collapseWsAux false cs

/-- Models `re.sub` collapsing each maximal whitespace run into one space. -/
def collapseWs (l : List Char) : List Char := collapseWsAux false l

/-- Models Python `str.strip()`: drop whitespace from both ends. -/
def pyStrip (l : List Char) : List Char :=
  ((l.dropWhile isPySpace).reverse.dropWhile isPySpace).reverse

/-- `clean_text(html)` from scanner.py: strip markup tags, collapse
whitespace runs to single spaces, trim both ends. -/
def clean_text (html : String) : String :=
  String.mk (pyStrip (collapseWs (stripTagsAux none html.data)))

/-! ## Hits, listings and the aggregation loop of `main` -/

/-- The fields of a fetched hit record that `main` reads. Each field is
optional, modelling presence or absence of the key in the raw dict. -/
structure Hit where
  objectID : Option String
  comment_text : Option String
  story_text : Option String
  author : Option String
  created_at : Option String
deriving DecidableEq

/-- A scored output record as assembled by `main`. -/
structure ScoredListing where
  id : String
  score : Int
  matched_skills : List String
  snippet : String
  url : String
  author : String
  created_at : String
deriving DecidableEq

/-- `build_hn_url(object_id)` from scanner.py. -/
def build_hn_url (object_id : String) : String :=
  "https://news.ycombinator.com/item?id=" ++ object_id

/-- Python truthiness of an optional string: present and non-empty. -/
def pyTruthy : Option String → Bool
  | none => false
  | some s => !(s == "")

/-- Models `hit.get("comment_text") or hit.get("story_text") or ""`. -/
def rawTextOf (h : Hit) : String :=
  if pyTruthy h.comment_text then h.comment_text.getD ""
  else if pyTruthy h.story_text then h.story_text.getD ""
  else ""

/-- The record appended to `all_listings` for an admitted hit. -/
def listingOf (hit : Hit) (obj_id : String) (text : String) : ScoredListing :=
  ⟨obj_id, (score_listing text).1, (score_listing text).2, pyTake 300 text,
   build_hn_url obj_id, hit.author.getD "", hit.created_at.getD ""⟩

/-- One iteration of the inner loop of `main` over a single hit: the state
is the seen-identifier set (as a list) and the accumulated listings. -/
def stepHit (st : List String × List ScoredListing) (hit : Hit) :
    List String × List ScoredListing :=
  if st.1.contains (hit.objectID.getD "") then st
  else if (clean_text (rawTextOf hit)).length < 50 then
    ((hit.objectID.getD "") :: st.1, st.2)
  else if (score_listing (clean_text (rawTextOf hit))).1 ≤ 0 then
    ((hit.objectID.getD "") :: st.1, st.2)
  else
    ((hit.objectID.getD "") :: st.1,
     st.2 ++ [listingOf hit (hit.objectID.getD "") (clean_text (rawTextOf hit))])

/-- The inner `for hit in hits` loop of `main`. -/
def processHits (st : List String × List ScoredListing) (hits : List Hit) :
    List String × List ScoredListing :=
  hits.foldl stepHit st

/-- The full double loop of `main`: one hit list per keyword, processed in
order against the shared seen-set and accumulator; returns `all_listings`. -/
def aggregate (hitss : List (List Hit)) : List ScoredListing :=
  (hitss.foldl processHits ([], [])).2

/-! ## Sorting and truncation (scanner.py, `main`, lines 117-118)

`all_listings.sort(key=lambda x: x["score"], reverse=True)` is a stable
sort by score descending; the unique stable descending order is computed
here by insertion sort that inserts each element before the first element
whose score is not larger. -/

/-- Insert `x` into a descending-sorted list, after every element of
strictly larger score and before every other element, so that elements of
equal score keep their original relative order. -/
def insertDesc (x : ScoredListing) : List ScoredListing → List ScoredListing
  | [] => [x]
  | y :: ys => if x.score < y.score then y :: insertDesc x ys else x :: y :: ys

/-- Stable sort by score descending, modelling
`all_listings.sort(key=lambda x: x["score"], reverse=True)`. -/
def sortDesc : List ScoredListing → List ScoredListing
  | [] => []
  | x :: xs => insertDesc x (sortDesc xs)

/-- Default of the `--top` CLI flag. -/
def DEFAULT_TOP : Nat := 10

/-- `main`, lines 117-118: sort descending by score (stable) and truncate
to the first `top` entries (`all_listings[:args.top]`). -/
def rankTop (l : List ScoredListing) (top : Nat) : List ScoredListing :=
  (sortDesc l).take top

theorem insertDesc_perm (x : ScoredListing) (l : List ScoredListing) :
    (insertDesc x l).Perm (x :: l) := by
  induction l with
  | nil => exact List.Perm.refl _
  | cons y ys ih =>
      unfold insertDesc
      by_cases h : x.score < y.score
      · simp only [if_pos h]
        exact (ih.cons y).trans (List.Perm.swap x y ys)
      · simp only [if_neg h]
        exact List.Perm.refl _

theorem sortDesc_perm (l : List ScoredListing) : (sortDesc l).Perm l := by
  induction l with
  | nil => exact List.Perm.refl _
  | cons x xs ih =>
      unfold sortDesc
      exact (insertDesc_perm x (sortDesc xs)).trans (ih.cons x)

theorem insertDesc_sorted (x : ScoredListing) (l : List ScoredListing)
    (hl : l.Pairwise (fun a b => b.score ≤ a.score)) :
    (insertDesc x l).Pairwise (fun a b => b.score ≤ a.score) := by
  induction l with
  | nil => simp [insertDesc]
  | cons y ys ih =>
      rw [List.pairwise_cons] at hl
      unfold insertDesc
      by_cases h : x.score < y.score
      · simp only [if_pos h]
        rw [List.pairwise_cons]
        refine ⟨?_, ih hl.2⟩
        intro b hb
        rcases List.mem_cons.mp ((insertDesc_perm x ys).mem_iff.mp hb) with hb | hb
        · subst hb; exact le_of_lt h
        · exact hl.1 b hb
      · simp only [if_neg h]
        rw [List.pairwise_cons]
        refine ⟨?_, List.pairwise_cons.mpr hl⟩
        intro b hb
        rcases List.mem_cons.mp hb with hb | hb
        · subst hb; exact le_of_not_lt h
        · exact le_trans (hl.1 b hb) (le_of_not_lt h)

theorem sortDesc_sorted (l : List ScoredListing) :
    (sortDesc l).Pairwise (fun a b => b.score ≤ a.score) := by
  induction l with
  | nil => simp [sortDesc]
  | cons x xs ih => exact insertDesc_sorted x (sortDesc xs) ih

theorem insertDesc_filter_score (x : ScoredListing) (l : List ScoredListing)
    (s : Int) :
    (insertDesc x l).filter (fun a => a.score == s) =
      if x.score == s then x :: l.filter (fun a => a.score == s)
      else l.filter (fun a => a.score == s) := by
  induction l with
  | nil => by_cases hx : x.score = s <;> simp [insertDesc, hx]
  | cons y ys ih =>
      unfold insertDesc
      by_cases h : x.score < y.score
      · simp only [if_pos h]
        by_cases hy : y.score = s
        · have hx : ¬x.score = s := by omega
          simp [List.filter_cons, hy, hx, ih]
        · simp only [List.filter_cons]
          by_cases hx : x.score = s <;> simp [hx, hy, ih]
      · simp only [if_neg h, List.filter_cons]

theorem sortDesc_stable (l : List ScoredListing) (s : Int) :
    (sortDesc l).filter (fun a => a.score == s) =
      l.filter (fun a => a.score == s) := by
  induction l with
  | nil => rfl
  | cons x xs ih =>
      unfold sortDesc
      rw [insertDesc_filter_score, List.filter_cons]
      by_cases hx : x.score = s <;> simp [hx, ih]

/-! ## Deduplication invariant of the aggregation loop -/

/-- Invariant of the `main` loop state: every accumulated listing carries
an identifier already recorded in the seen-set, and no two accumulated
listings share an identifier. -/
def IdsOk (st : List String × List ScoredListing) : Prop :=
  (∀ l ∈ st.2, st.1.contains l.id = true) ∧
  st.2.Pairwise (fun a b => a.id ≠ b.id)

theorem stepHit_fst (st : List String × List ScoredListing) (h : Hit) :
    (stepHit st h).1 =
      if st.1.contains (h.objectID.getD "") then st.1
      else (h.objectID.getD "") :: st.1 := by
  unfold stepHit
  by_cases hc : st.1.contains (h.objectID.getD "") = true
  · rw [if_pos hc, if_pos hc]
  · rw [if_neg hc, if_neg hc]
    split
    · rfl
    · split <;> rfl

theorem stepHit_seen_mono (st : List String × List ScoredListing) (h : Hit)
    (x : String) (hx : st.1.contains x = true) :
    (stepHit st h).1.contains x = true := by
  rw [stepHit_fst]
  split
  · exact hx
  · simp only [List.contains_cons, hx, Bool.or_true]

theorem stepHit_idsOk (st : List String × List ScoredListing) (h : Hit)
    (hst : IdsOk st) : IdsOk (stepHit st h) := by
  unfold stepHit
  by_cases h1 : st.1.contains (h.objectID.getD "") = true
  · rw [if_pos h1]; exact hst
  · rw [if_neg h1]
    split
    · refine ⟨?_, hst.2⟩
      intro l hl
      simp only [List.contains_cons, hst.1 l hl, Bool.or_true]
    · split
      · refine ⟨?_, hst.2⟩
        intro l hl
        simp only [List.contains_cons, hst.1 l hl, Bool.or_true]
      · constructor
        · intro l hl
          rcases List.mem_append.mp hl with hl | hl
          · simp only [List.contains_cons, hst.1 l hl, Bool.or_true]
          · rcases List.mem_singleton.mp hl with rfl
            simp [listingOf]
        · rw [List.pairwise_append]
          refine ⟨hst.2, List.pairwise_singleton _ _, ?_⟩
          intro a ha b hb
          rcases List.mem_singleton.mp hb with rfl
          show a.id ≠ (h.objectID.getD "")
          intro hcontra
          apply h1
          rw [← hcontra]
          exact hst.1 a ha

theorem processHits_idsOk (hits : List Hit)
    (st : List String × List ScoredListing) (hst : IdsOk st) :
    IdsOk (processHits st hits) := by
  induction hits generalizing st with
  | nil => exact hst
  | cons h hs ih => exact ih (stepHit st h) (stepHit_idsOk st h hst)

theorem aggregate_pairwise_ids (hitss : List (List Hit)) :
    (aggregate hitss).Pairwise (fun a b => a.id ≠ b.id) := by
  have main : ∀ (hss : List (List Hit)) (st : List String × List ScoredListing),
      IdsOk st → IdsOk (hss.foldl processHits st) := by
    intro hss
    induction hss with
    | nil => intro st hst; exact hst
    | cons hs rest ih =>
        intro st hst
        exact ih (processHits st hs) (processHits_idsOk hs st hst)
  exact (main hitss ([], [])
    ⟨fun l hl => absurd hl (List.not_mem_nil l), List.Pairwise.nil⟩).2

theorem pairwise_ne_filter_id_le_one (l : List ScoredListing)
    (hp : l.Pairwise (fun a b => a.id ≠ b.id)) (i : String) :
    (l.filter (fun x => x.id == i)).length ≤ 1 := by
  induction l with
  | nil => simp
  | cons a l ih =>
      rw [List.pairwise_cons] at hp
      rw [List.filter_cons]
      by_cases ha : a.id = i
      · simp only [ha, beq_self_eq_true, if_pos]
        have : l.filter (fun x => x.id == i) = [] := by
          rw [List.filter_eq_nil_iff]
          intro b hb
          simp only [beq_iff_eq]
          intro hbi
          exact hp.1 b hb (ha.trans hbi.symm)
        simp [this]
      · have : (a.id == i) = false := by simp [ha]
        rw [this]
        simp only [Bool.false_eq_true, if_false]
        exact ih hp.2

/-! ## Concrete fixtures for the aggregation and ranking claims -/

/-- A normalized 49-character text matching `python` and `sql`. -/
def text49 : String := "python and sql jobs available here right now okay"

/-- A normalized 50-character text matching `python` and `sql`. -/
def text50 : String := "python and sql jobs available here right now okayy"

/-- A qualifying hit with identifier 41. -/
def hitA : Hit := ⟨some "41", some text50, none, some "alice", some "2026-01-01"⟩

/-- A qualifying hit duplicating identifier 41 with different payload. -/
def hitADup : Hit := ⟨some "41", some text50, none, some "bob", some "2026-01-02"⟩

/-- A hit whose cleaned text is shorter than 50 characters. -/
def hitShort7 : Hit := ⟨some "7", some "short text", none, none, none⟩

/-- A qualifying hit sharing identifier 7 with `hitShort7`. -/
def hitGood7 : Hit := ⟨some "7", some text50, none, none, none⟩

/-- A qualifying hit with no identifier field. -/
def hitNoId1 : Hit := ⟨none, some text50, none, some "a", some "t"⟩

/-- A second qualifying identifier-less hit with different text. -/
def hitNoId2 : Hit :=
  ⟨none, some "docker and react are used here every single day okay", none,
   some "b", some "u"⟩

/-- A bare candidate listing with a given identifier and score, for the
ranking examples. -/
def mkL (i : String) (sc : Int) : ScoredListing := ⟨i, sc, [], "", "", "", ""⟩

/-- Ten candidates with pairwise-distinct scores, in fetch order. -/
def tenCandidates : List ScoredListing :=
  [mkL "a" 50, mkL "b" 20, mkL "c" 90, mkL "d" 10, mkL "e" 70,
   mkL "f" 30, mkL "g" 100, mkL "h" 60, mkL "i" 40, mkL "j" 80]

/-! ## Claims about deduplication, ranking and filtering -/

/-- C3: within one run no two output listings share an identifier; when
the same identifier arrives from different keyword queries, exactly one
listing is produced — the first occurrence encountered — and the later
duplicate is dropped silently, as the concrete two-keyword run with
`hitA` and `hitADup` shows. -/
theorem C3_dedup_unique_ids (hitss : List (List Hit)) :
    (aggregate hitss).Pairwise (fun a b => a.id ≠ b.id)
  ∧ aggregate [[hitA], [hitADup]] =
      [listingOf hitA "41" (clean_text (rawTextOf hitA))] := by
  refine ⟨aggregate_pairwise_ids hitss, ?_⟩
  decide

/-- C4: the ranker sorts by score descending with a stable tie-break
(the sorted list is a permutation, pairwise descending, and filtering by
any score value preserves the input order of that score class) and then
truncates to the requested top count; concretely, scores
`[30, 10, 30, 20]` come out as the two 30-scores in insertion order, then
20, then 10, and the top 3 of ten qualifying candidates are exactly the
three highest-scored. -/
theorem C4_stable_sort_truncate (l : List ScoredListing) (n : Nat) :
    (sortDesc l).Pairwise (fun a b => b.score ≤ a.score)
  ∧ (sortDesc l).Perm l
  ∧ (∀ s : Int, (sortDesc l).filter (fun a => a.score == s) =
        l.filter (fun a => a.score == s))
  ∧ (rankTop l n).length = min n l.length
  ∧ rankTop [mkL "w" 30, mkL "x" 10, mkL "y" 30, mkL "z" 20] DEFAULT_TOP =
      [mkL "w" 30, mkL "y" 30, mkL "z" 20, mkL "x" 10]
  ∧ rankTop tenCandidates 3 = [mkL "g" 100, mkL "c" 90, mkL "j" 80] := by
  refine ⟨sortDesc_sorted l, sortDesc_perm l, sortDesc_stable l, ?_, by decide, by decide⟩
  unfold rankTop
  rw [List.length_take, (sortDesc_perm l).length_eq]

/-- A hit whose cleaned text has exactly 49 characters. -/
def hit49 : Hit := ⟨some "49", some text49, none, none, none⟩

/-- A hit whose cleaned text has exactly 50 characters. -/
def hit50 : Hit := ⟨some "50", some text50, none, none, none⟩

/-- C7: a fresh hit whose normalized text is shorter than 50 characters is
skipped regardless of its skill content, while one of length exactly 50 is
admitted to scoring and, scoring positively, is appended — the boundary is
inclusive. -/
theorem C7_length_threshold (seen : List String) (acc : List ScoredListing)
    (h : Hit) (hfresh : seen.contains (h.objectID.getD "") = false) :
    ((clean_text (rawTextOf h)).length < 50 →
        stepHit (seen, acc) h = ((h.objectID.getD "") :: seen, acc))
  ∧ ((clean_text (rawTextOf h)).length = 50 →
     0 < (score_listing (clean_text (rawTextOf h))).1 →
        stepHit (seen, acc) h =
          ((h.objectID.getD "") :: seen,
           acc ++ [listingOf h (h.objectID.getD "") (clean_text (rawTextOf h))])) := by
  have hc : ¬(seen.contains (h.objectID.getD "") = true) := by
    rw [hfresh]; exact Bool.false_ne_true
  constructor
  · intro hlen
    unfold stepHit
    rw [if_neg hc, if_pos hlen]
  · intro hlen hsc
    unfold stepHit
    rw [if_neg hc, if_neg (by omega : ¬(clean_text (rawTextOf h)).length < 50),
        if_neg (not_le.mpr hsc)]

/-- Witness for C7: `hit49` (49 characters of cleaned text, matching two
skills) is dropped; `hit50` (50 characters) is scored and kept. -/
theorem C7_length_threshold_witness :
    stepHit ([], []) hit49 = (["49"], [])
  ∧ stepHit ([], []) hit50 =
      (["50"], [listingOf hit50 "50" (clean_text (rawTextOf hit50))]) :=
  ⟨(C7_length_threshold [] [] hit49 (by decide)).1 (by decide),
   (C7_length_threshold [] [] hit50 (by decide)).2 (by decide) (by decide)⟩

/-- C9: the identifier of a hit is recorded in the seen-set before the
length and score filters run — the seen-set always gains the identifier of
a fresh hit whatever the filters decide, a hit with a seen identifier
leaves the state unchanged, and so in the concrete run where the first
occurrence of identifier 7 is dropped for short text, the later qualifying
occurrence is dropped too. -/
theorem C9_seen_added_before_filters (seen : List String)
    (acc : List ScoredListing) (h : Hit) :
    (stepHit (seen, acc) h).1 =
      (if seen.contains (h.objectID.getD "") then seen
       else (h.objectID.getD "") :: seen)
  ∧ (seen.contains (h.objectID.getD "") = true →
        stepHit (seen, acc) h = (seen, acc))
  ∧ processHits ([], []) [hitShort7, hitGood7] = (["7"], []) := by
  refine ⟨stepHit_fst (seen, acc) h, ?_, by decide⟩
  intro hc
  unfold stepHit
  rw [if_pos hc]

/-- Witness for C9: a second hit carrying the already-seen identifier 7 is
a no-op even though its own text would pass both filters. -/
theorem C9_seen_added_before_filters_witness :
    stepHit (["7"], []) hitGood7 = (["7"], []) :=
  (C9_seen_added_before_filters ["7"] [] hitGood7).2.1 (by decide)

/-- C10: a hit without an identifier field raises no error — its
identifier defaults to the empty string, which enters the seen-set, so at
most one identifier-less hit of a run yields a listing, that listing's URL
is the item URL with the empty id appended, and a second identifier-less
hit is dropped. -/
theorem C10_missing_identifier (seen : List String) (acc : List ScoredListing)
    (h : Hit) (hid : h.objectID = none) :
    (stepHit (seen, acc) h).1 = (if seen.contains "" then seen else "" :: seen)
  ∧ (seen.contains "" = true → stepHit (seen, acc) h = (seen, acc))
  ∧ (∀ l ∈ (stepHit (seen, acc) h).2,
        l ∈ acc ∨ (l.id = "" ∧ l.url = "https://news.ycombinator.com/item?id="))
  ∧ (∀ hitss : List (List Hit),
        ((aggregate hitss).filter (fun l => l.id == "")).length ≤ 1)
  ∧ aggregate [[hitNoId1, hitNoId2]] =
      [listingOf hitNoId1 "" (clean_text (rawTextOf hitNoId1))]
  ∧ (aggregate [[hitNoId1, hitNoId2]]).map (fun l => l.url) =
      ["https://news.ycombinator.com/item?id="] := by
  have hgd : h.objectID.getD "" = "" := by rw [hid]; rfl
  refine ⟨?_, ?_, ?_, ?_, by decide, by decide⟩
  · rw [stepHit_fst, hgd]
  · intro hc
    unfold stepHit
    rw [hgd, if_pos hc]
  · intro l hl
    unfold stepHit at hl
    rw [hgd] at hl
    by_cases hc : seen.contains "" = true
    · rw [if_pos hc] at hl
      exact Or.inl hl
    · rw [if_neg hc] at hl
      split at hl
      · exact Or.inl hl
      · split at hl
        · exact Or.inl hl
        · rcases List.mem_append.mp hl with hl | hl
          · exact Or.inl hl
          · rcases List.mem_singleton.mp hl with rfl
            exact Or.inr ⟨rfl, rfl⟩
  · intro hitss
    exact pairwise_ne_filter_id_le_one _ (aggregate_pairwise_ids hitss) ""

/-- Witness for C10: with the empty identifier already seen, an
identifier-less hit is dropped silently. -/
theorem C10_missing_identifier_witness :
    stepHit ([""], []) hitNoId1 = ([""], []) :=
  (C10_missing_identifier [""] [] hitNoId1 rfl).2.1 (by decide)

/-! ## Fetching (scanner.py, `fetch_hn_jobs`) and the whole run

The HTTP request, status check and JSON decoding inside the `try` block
can each raise; a raised exception is modelled as `Except.error` carrying
its message. The `except` handler prints one warning naming the query and
the error to stderr and returns the empty list; a warning is modelled as a
`Warn` record collected alongside the results. -/

/-- One warning line written to stderr, naming the keyword and the error. -/
structure Warn where
  keyword : String
  error : String
deriving DecidableEq

/-- `fetch_hn_jobs(query, limit)` from scanner.py, with the outcome of the
guarded HTTP-and-decode block passed in: a successful fetch returns its
hits, any raised failure is caught, logged as a warning with the query and
error detail, and turned into an empty hit list. -/
def fetch_hn_jobs (query : String) (attempt : Except String (List Hit)) :
    List Hit × List Warn :=
  match attempt with
  | Except.ok hits => (hits, [])
  | Except.error e => ([], [⟨query, e⟩])

/-- The whole run of `main` over a list of keywords with their fetch
outcomes: fetch each keyword in order, aggregate all hits through the
dedup/filter/score loop, sort and truncate; warnings accumulate in order. -/
def runScan (attempts : List (String × Except String (List Hit)))
    (top : Nat) : List ScoredListing × List Warn :=
  (rankTop (aggregate (attempts.map fun a => (fetch_hn_jobs a.1 a.2).1)) top,
   (attempts.map fun a => (fetch_hn_jobs a.1 a.2).2).flatten)

/-- C8: a failure raised during the fetch for one keyword is caught inside
`fetch_hn_jobs`, logged as a warning naming the keyword and the error, and
yields the empty hit list, so a run containing a failing keyword produces
exactly the results of the same run with that keyword returning no hits —
the remaining keywords are still processed. -/
theorem C8_fetch_failure_is_soft
    (ks1 ks2 : List (String × Except String (List Hit)))
    (q e : String) (top : Nat) :
    fetch_hn_jobs q (Except.error e) = ([], [⟨q, e⟩])
  ∧ (runScan (ks1 ++ (q, Except.error e) :: ks2) top).1 =
      (runScan (ks1 ++ (q, Except.ok []) :: ks2) top).1
  ∧ Warn.mk q e ∈ (runScan (ks1 ++ (q, Except.error e) :: ks2) top).2 := by
  refine ⟨rfl, ?_, ?_⟩
  · unfold runScan
    simp only [List.map_append, List.map_cons]
    rfl
  · unfold runScan
    simp only [List.map_append, List.map_cons]
    exact List.mem_flatten.mpr
      ⟨(fetch_hn_jobs q (Except.error e)).2,
       List.mem_append_right _ (List.mem_cons_self _ _),
       List.mem_singleton_self _⟩
